import Mathlib

/-!
Verification development for the schema-directed value codec of the
soroban-tools repository (`cmd/strval/src/strval.rs` and
`cmd/strval/src/utils.rs`).

The Rust source is shallowly embedded: pure Rust functions become Lean
functions on algebraic data types; `Result<T, Error>` becomes
`Except Fail T`, where `Fail` distinguishes returned errors from panics
(`unwrap`, `todo!`, out-of-bounds indexing); machine integers become
`Nat`/`Int` with explicit range checks at the points where the source
performs fallible conversions.

Recursion through user-defined-type schemas is not structurally bounded in
the source (a cyclic schema overflows the Rust stack), so the recursive
codec functions take an explicit fuel argument and return a distinguished
`Fail.outOfFuel` when it runs out; every recursive call consumes one unit
of fuel.
-/

/-! ## JSON value model (serde_json::Value)

`serde_json::Number` stores either a `u64`, a negative `i64`, or an `f64`.
The codec only ever constructs integral numbers (`serde_json::Number::from`
on integer types), so the float case carries no payload; `as_u64`/`as_i64`
return `none` on it exactly as serde does on any float. -/

inductive JNum where
  | u (n : Nat)
  | i (n : Int)
  | f
  deriving Repr, DecidableEq

def JNum.as_u64 : JNum → Option Nat
  | .u n => some n
  | _ => none

def JNum.as_i64 : JNum → Option Int
  | .u n => if n ≤ 9223372036854775807 then some (n : Int) else none
  | .i n => some n
  | .f => none

/-- serde_json::Value. Objects are the sorted-unique entry lists of a
`BTreeMap<String, Value>` (serde_json's default map representation). -/
inductive Json where
  | null
  | bool (b : Bool)
  | num (n : JNum)
  | str (s : String)
  | arr (elts : List Json)
  | obj (entries : List (String × Json))

/-- BTreeMap insertion: keep entries sorted by key, replace on an equal key. -/
def objInsert (k : String) (v : Json) : List (String × Json) → List (String × Json)
  | [] => [(k, v)]
  | (k0, v0) :: rest =>
    match compare k k0 with
    | .lt => (k, v) :: (k0, v0) :: rest
    | .eq => (k, v) :: rest
    | .gt => (k0, v0) :: objInsert k v rest

/-- `collect::<Result<Vec<_>, _>>()` and friends: sequence a list of
monadic results, stopping at the first failure. -/
def collectM [Monad m] (f : α → m β) : List α → m (List β)
  | [] => pure []
  | a :: as_ => do
    let b ← f a
    let bs ← collectM f as_
    pure (b :: bs)

/-- BTreeMap lookup (`map.get(name)`). -/
def jsonObjGet (entries : List (String × Json)) (k : String) : Option Json :=
  match entries.find? (fun kv => kv.1 == k) with
  | some kv => some kv.2
  | none => none

/-! ## Decimal integer rendering and parsing

`u128::to_string` / `i128::to_string` render in decimal;
`u128::from_str` / `i128::from_str` accept an optional sign followed by
decimal digits, failing on overflow. -/

/-- Decimal digits of `n`, most significant first, prepended to `acc`.
Fueled to stay structurally recursive; `fuel > n` always suffices since the
value shrinks by a factor of ten per step. -/
def natToDecCharsF : Nat → Nat → List Char → List Char
  | 0, _, acc => acc
  | fuel+1, n, acc =>
    let acc1 := Nat.digitChar (n % 10) :: acc
    if n < 10 then acc1 else natToDecCharsF fuel (n / 10) acc1

def natToDecimal (n : Nat) : String := String.mk (natToDecCharsF (n + 1) n [])

def intToDecimal (v : Int) : String :=
  if v < 0 then "-" ++ natToDecimal (-v).toNat else natToDecimal v.toNat

/-- Fold decimal digit characters onto an accumulator; `none` on a
non-digit. -/
def parseDigitsGo (acc : Nat) : List Char → Option Nat
  | [] => some acc
  | c :: cs => if c.isDigit then parseDigitsGo (acc * 10 + (c.toNat - 48)) cs else none

/-- Nonempty all-digit character list to its value. -/
def rust_parse_digits : List Char → Option Nat
  | [] => none
  | c :: cs => parseDigitsGo 0 (c :: cs)

/-- u128::from_str: optional leading plus sign, then decimal digits,
error on overflow past 2^128 - 1. -/
def rust_u128_from_str (s : String) : Option Nat :=
  let cs := s.toList
  let digits := match cs with
    | c :: rest => if c = '+' then rest else cs
    | [] => cs
  match rust_parse_digits digits with
  | some v => if v < 2 ^ 128 then some v else none
  | none => none

/-- i128::from_str: optional sign, then decimal digits, error outside
[-2^127, 2^127 - 1]. -/
def rust_i128_from_str (s : String) : Option Int :=
  let cs := s.toList
  match cs with
  | [] => none
  | c :: rest =>
    if c = '+' then
      match rust_parse_digits rest with
      | some v => if v ≤ 2 ^ 127 - 1 then some (v : Int) else none
      | none => none
    else if c = '-' then
      match rust_parse_digits rest with
      | some v => if v ≤ 2 ^ 127 then some (-(v : Int)) else none
      | none => none
    else
      match rust_parse_digits cs with
      | some v => if v ≤ 2 ^ 127 - 1 then some (v : Int) else none
      | none => none

/-! ## Hex encoding/decoding (the `hex` crate) -/

def hexVal (c : Char) : Option Nat :=
  if '0' ≤ c ∧ c ≤ '9' then some (c.toNat - 48)
  else if 'a' ≤ c ∧ c ≤ 'f' then some (c.toNat - 87)
  else if 'A' ≤ c ∧ c ≤ 'F' then some (c.toNat - 55)
  else none

def hex_decode_chars : List Char → Option (List Nat)
  | [] => some []
  | c1 :: c2 :: rest => do
    let h ← hexVal c1
    let l ← hexVal c2
    let r ← hex_decode_chars rest
    pure ((h * 16 + l) :: r)
  | _ => none

/-- hex::decode: strict, even-length hex string to bytes. -/
def hex_decode (s : String) : Option (List Nat) := hex_decode_chars s.toList

/-- to_lower_hex from strval.rs: each byte as two lower-case hex digits. -/
def to_lower_hex (bytes : List Nat) : String :=
  String.mk ((bytes.map (fun b => [Nat.digitChar (b / 16 % 16), Nat.digitChar (b % 16)])).flatten)

/-- utils::padded_hex_from_str: left-pad with zeros to `2 * n` characters,
then decode into exactly `n` bytes (error when the input is longer than
`2 * n` or contains a non-hex character). -/
def padded_hex_from_str (s : String) (n : Nat) : Option (List Nat) :=
  let padded := List.replicate (2 * n - s.length) '0' ++ s.toList
  if padded.length = 2 * n then hex_decode_chars padded else none

/-! ## Strkey (stellar_strkey::ed25519::PublicKey)

Modelled from the spec: strkey is "the platform's base32 text encoding for
32-byte ed25519 public keys" with a leading `G` (version byte `6 << 3`);
the concrete payload framing (version byte, 32-byte key, CRC16-XModem
checksum, unpadded base32, 56 characters) follows the published strkey
convention the dependency implements. -/

def b32alphabet : List Char := "ABCDEFGHIJKLMNOPQRSTUVWXYZ234567".toList

def b32val (c : Char) : Option Nat := b32alphabet.findIdx? (fun x => x == c)

def crc16_bit (crc : Nat) : Nat :=
  if crc % 65536 ≥ 32768 then ((crc * 2) ^^^ 4129) % 65536 else (crc * 2) % 65536

def crc16_byte (crc b : Nat) : Nat :=
  crc16_bit (crc16_bit (crc16_bit (crc16_bit (crc16_bit (crc16_bit (crc16_bit (crc16_bit
    ((crc ^^^ (b * 256)) % 65536))))))))

def crc16 (bytes : List Nat) : Nat := bytes.foldl crc16_byte 0

/-- Decode an ed25519 public-key strkey; `some` holds the 32 key bytes. -/
def strkey_decode (s : String) : Option (List Nat) :=
  let cs := s.toList
  if cs.length = 56 then
    match cs.mapM b32val with
    | none => none
    | some vals =>
      let numeric := vals.foldl (fun acc v => acc * 32 + v) 0
      let bytes := (List.range 35).map (fun i => numeric / 256 ^ (34 - i) % 256)
      match bytes with
      | version :: rest =>
        let payload := rest.take 32
        let checksum := rest.drop 32
        if version = 48 ∧ checksum = [crc16 (version :: payload) % 256, crc16 (version :: payload) / 256] then
          some payload
        else none
      | [] => none
  else none

/-- Encode 32 key bytes as an ed25519 public-key strkey string. -/
def strkey_encode (key : List Nat) : String :=
  let payload := 48 :: key.take 32
  let c := crc16 payload
  let full := payload ++ [c % 256, c / 256]
  let numeric := full.foldl (fun acc b => acc * 256 + b) 0
  String.mk ((List.range 56).map (fun i => b32alphabet.getD (numeric / 32 ^ (55 - i) % 32) 'A'))

/-! ## JSON parsing (serde_json::from_str)

Modelled from the spec: the source delegates string parsing to
`serde_json::from_str`, which implements strict JSON: literals, strings
with escape sequences, strict number syntax (no leading zeros), arrays,
objects into a `BTreeMap` (later duplicates win), surrounding whitespace,
and an error on trailing input. Integral numbers fitting `u64`/`i64`
become integers; everything else becomes a float. -/

def jsonWs : List Char → List Char
  | c :: rest =>
    if c = ' ' ∨ c = '\t' ∨ c = '\n' ∨ c = '\r' then jsonWs rest else c :: rest
  | [] => []

/-- Split off a maximal run of leading decimal digits. -/
def takeDigits : List Char → (List Char × List Char)
  | [] => ([], [])
  | c :: rest =>
    if c.isDigit then
      let (d, r) := takeDigits rest
      (c :: d, r)
    else ([], c :: rest)

def charListToNat (cs : List Char) : Nat :=
  cs.foldl (fun acc c => acc * 10 + (c.toNat - 48)) 0

/-- Parse a JSON number from the head of the input. -/
def json_parse_number (cs : List Char) : Option (JNum × List Char) :=
  let (neg, cs1) := match cs with
    | c :: rest => if c = '-' then (true, rest) else (false, cs)
    | [] => (false, cs)
  let (intDigits, cs2) := takeDigits cs1
  match intDigits with
  | [] => none
  | d0 :: drest =>
    if d0 = '0' ∧ drest ≠ [] then none
    else
      let (isFloat, cs3) :=
        match cs2 with
        | '.' :: afterDot =>
          let (fracDigits, r) := takeDigits afterDot
          if fracDigits = [] then (none, cs2) else (some true, r)
        | _ => (some false, cs2)
      match isFloat with
      | none => none
      | some fl =>
        let (isFloat2, cs4) :=
          match cs3 with
          | e :: afterE =>
            if e = 'e' ∨ e = 'E' then
              let afterSign := match afterE with
                | s :: r2 => if s = '+' ∨ s = '-' then r2 else afterE
                | [] => afterE
              let (expDigits, r) := takeDigits afterSign
              if expDigits = [] then (none, cs3) else (some true, r)
            else (some fl, cs3)
          | [] => (some fl, cs3)
        match isFloat2 with
        | none => none
        | some true => some (.f, cs4)
        | some false =>
          let v := charListToNat intDigits
          if neg then
            if v = 0 then some (.u 0, cs4)
            else if v ≤ 2 ^ 63 then some (.i (-(v : Int)), cs4)
            else some (.f, cs4)
          else
            if v < 2 ^ 64 then some (.u v, cs4) else some (.f, cs4)

/-- Parse the remainder of a JSON string literal (after the opening
quote), returning its characters. Fueled by remaining input length. -/
def json_parse_string_chars : Nat → List Char → Option (List Char × List Char)
  | 0, _ => none
  | fuel+1, cs =>
    match cs with
    | [] => none
    | '"' :: rest => some ([], rest)
    | '\\' :: esc =>
      match esc with
      | '"' :: r => (fun p => ('"' :: p.1, p.2)) <$> json_parse_string_chars fuel r
      | '\\' :: r => (fun p => ('\\' :: p.1, p.2)) <$> json_parse_string_chars fuel r
      | '/' :: r => (fun p => ('/' :: p.1, p.2)) <$> json_parse_string_chars fuel r
      | 'b' :: r => (fun p => ('\x08' :: p.1, p.2)) <$> json_parse_string_chars fuel r
      | 'f' :: r => (fun p => ('\x0c' :: p.1, p.2)) <$> json_parse_string_chars fuel r
      | 'n' :: r => (fun p => ('\n' :: p.1, p.2)) <$> json_parse_string_chars fuel r
      | 'r' :: r => (fun p => ('\r' :: p.1, p.2)) <$> json_parse_string_chars fuel r
      | 't' :: r => (fun p => ('\t' :: p.1, p.2)) <$> json_parse_string_chars fuel r
      | 'u' :: h1 :: h2 :: h3 :: h4 :: r => do
        let n1 ← hexVal h1
        let n2 ← hexVal h2
        let n3 ← hexVal h3
        let n4 ← hexVal h4
        let n := n1 * 4096 + n2 * 256 + n3 * 16 + n4
        if 55296 ≤ n ∧ n ≤ 56319 then
          match r with
          | '\\' :: 'u' :: g1 :: g2 :: g3 :: g4 :: r2 => do
            let m1 ← hexVal g1
            let m2 ← hexVal g2
            let m3 ← hexVal g3
            let m4 ← hexVal g4
            let m := m1 * 4096 + m2 * 256 + m3 * 16 + m4
            if 56320 ≤ m ∧ m ≤ 57343 then
              let scalar := 65536 + (n - 55296) * 1024 + (m - 56320)
              (fun p => (Char.ofNat scalar :: p.1, p.2)) <$> json_parse_string_chars fuel r2
            else none
          | _ => none
        else if 56320 ≤ n ∧ n ≤ 57343 then none
        else (fun p => (Char.ofNat n :: p.1, p.2)) <$> json_parse_string_chars fuel r
      | _ => none
    | c :: rest =>
      if c.toNat < 32 then none
      else (fun p => (c :: p.1, p.2)) <$> json_parse_string_chars fuel rest

/-- Parse comma-separated array elements up to the closing bracket, given
a parser for one value. -/
def json_parse_elems (pv : List Char → Option (Json × List Char)) :
    Nat → List Char → Option (List Json × List Char)
  | 0, _ => none
  | fuel+1, cs => do
    let (v, cs1) ← pv cs
    match jsonWs cs1 with
    | ',' :: rest => (fun p => (v :: p.1, p.2)) <$> json_parse_elems pv fuel (jsonWs rest)
    | ']' :: rest => some ([v], rest)
    | _ => none

/-- Parse comma-separated object members up to the closing brace, given a
parser for one value. -/
def json_parse_members (pv : List Char → Option (Json × List Char)) :
    Nat → List Char → Option (List (String × Json) × List Char)
  | 0, _ => none
  | fuel+1, cs =>
    match jsonWs cs with
    | '"' :: rest => do
      let (kchars, cs1) ← json_parse_string_chars (rest.length + 1) rest
      match jsonWs cs1 with
      | ':' :: cs2 => do
        let (v, cs3) ← pv cs2
        match jsonWs cs3 with
        | ',' :: rest2 =>
          (fun p => ((String.mk kchars, v) :: p.1, p.2)) <$> json_parse_members pv fuel rest2
        | '\x7d' :: rest2 => some ([(String.mk kchars, v)], rest2)
        | _ => none
      | _ => none
    | _ => none

def json_parse_val : Nat → List Char → Option (Json × List Char)
  | 0, _ => none
  | fuel+1, cs =>
    match jsonWs cs with
    | [] => none
    | 'n' :: 'u' :: 'l' :: 'l' :: rest => some (.null, rest)
    | 't' :: 'r' :: 'u' :: 'e' :: rest => some (.bool true, rest)
    | 'f' :: 'a' :: 'l' :: 's' :: 'e' :: rest => some (.bool false, rest)
    | '"' :: rest =>
      (fun p => (Json.str (String.mk p.1), p.2)) <$>
        json_parse_string_chars (rest.length + 1) rest
    | '[' :: rest =>
      (match jsonWs rest with
       | ']' :: rest2 => some (.arr [], rest2)
       | r => (fun p => (Json.arr p.1, p.2)) <$> json_parse_elems (json_parse_val fuel) fuel r)
    | '\x7b' :: rest =>
      (match jsonWs rest with
       | '\x7d' :: rest2 => some (.obj [], rest2)
       | r =>
         (fun p => (Json.obj (p.1.foldl (fun acc kv => objInsert kv.1 kv.2 acc) []), p.2)) <$>
           json_parse_members (json_parse_val fuel) fuel r)
    | c :: rest =>
      if c = '-' ∨ c.isDigit then
        (fun p => (Json.num p.1, p.2)) <$> json_parse_number (c :: rest)
      else none

/-- serde_json::from_str: parse one value, allow trailing whitespace,
error on anything else left over. -/
def json_from_str (s : String) : Except Unit Json :=
  let cs := s.toList
  match json_parse_val (cs.length + 2) cs with
  | some (v, rest) =>
    match jsonWs rest with
    | [] => .ok v
    | _ => .error ()
  | none => .error ()

/-! ## JSON rendering (serde_json::to_string / Value::to_string) -/

def jsonEscapeChar (c : Char) : List Char :=
  if c = '"' then ['\\', '"']
  else if c = '\\' then ['\\', '\\']
  else if c = '\x08' then ['\\', 'b']
  else if c = '\x0c' then ['\\', 'f']
  else if c = '\n' then ['\\', 'n']
  else if c = '\r' then ['\\', 'r']
  else if c = '\t' then ['\\', 't']
  else if c.toNat < 32 then
    ['\\', 'u', '0', '0', Nat.digitChar (c.toNat / 16), Nat.digitChar (c.toNat % 16)]
  else [c]

def renderJString (s : String) : String :=
  "\"" ++ String.mk (s.toList.map jsonEscapeChar).flatten ++ "\""

/-- Fuel bound standing for unbounded recursion: deep enough that any value
whose depth exceeded it would already have overflowed the Rust stack. -/
def deepFuel : Nat := 2 ^ 64

def Json.renderF : Nat → Json → String
  | 0, _ => ""
  | fuel+1, j =>
    match j with
    | .null => "null"
    | .bool true => "true"
    | .bool false => "false"
    | .num (.u n) => natToDecimal n
    | .num (.i m) => intToDecimal m
    | .num .f => "0.0"
    | .str s => renderJString s
    | .arr l => "[" ++ String.intercalate "," (l.map (Json.renderF fuel)) ++ "]"
    | .obj entries =>
      "\x7b" ++
        String.intercalate ","
          (entries.map (fun kv => renderJString kv.1 ++ ":" ++ Json.renderF fuel kv.2)) ++
        "\x7d"

/-- Value::to_string (compact serde_json serialization). -/
def Json.render (j : Json) : String := Json.renderF deepFuel j

/-! ## The SCV value model (soroban_env_host::xdr::ScVal / ScObject)

Map entries (`ScMapEntry { key, val }`) are modelled as pairs. `Symbol`
payloads (`StringM<10>`) and struct/union/function names are modelled as
Lean strings compared character-wise, which agrees with the byte-wise
comparison of the source for the ASCII domain the codec enforces.
`Int128Parts` keeps the source's field order `lo, hi`. -/

inductive ScStatic where
  | void
  | true
  | false
  | ledgerKeyContractCode
  deriving Repr, DecidableEq

mutual
inductive ScVal where
  | u63 (n : Int)
  | u32 (n : Nat)
  | i32 (n : Int)
  | static (s : ScStatic)
  | object (o : Option ScObject)
  | symbol (s : String)
  | bitset (n : Nat)
  | status (n : Nat)
inductive ScObject where
  | vec (elts : List ScVal)
  | map (entries : List (ScVal × ScVal))
  | u64 (n : Nat)
  | i64 (n : Int)
  | u128 (lo hi : Nat)
  | i128 (lo hi : Nat)
  | bytes (b : List Nat)
  | contractCode (wasmRefHash : List Nat)
  | accountId (key : List Nat)
end

/-- Discriminant rank of the derived `Ord` on `ScVal` (declaration order of
the XDR enum: U63, U32, I32, Static, Object, Symbol, Bitset, Status). -/
def ScVal.rank : ScVal → Nat
  | .u63 _ => 0
  | .u32 _ => 1
  | .i32 _ => 2
  | .static _ => 3
  | .object _ => 4
  | .symbol _ => 5
  | .bitset _ => 6
  | .status _ => 7

/-- Discriminant rank of the derived `Ord` on `ScObject` (declaration
order: Vec, Map, U64, I64, U128, I128, Bytes, ContractCode, AccountId). -/
def ScObject.rank : ScObject → Nat
  | .vec _ => 0
  | .map _ => 1
  | .u64 _ => 2
  | .i64 _ => 3
  | .u128 _ _ => 4
  | .i128 _ _ => 5
  | .bytes _ => 6
  | .contractCode _ => 7
  | .accountId _ => 8

def ScStatic.rank : ScStatic → Nat
  | .void => 0
  | .true => 1
  | .false => 2
  | .ledgerKeyContractCode => 3

def listCmpWith (cmp : α → α → Ordering) : List α → List α → Ordering
  | [], [] => .eq
  | [], _ :: _ => .lt
  | _ :: _, [] => .gt
  | a :: as_, b :: bs =>
    match cmp a b with
    | .eq => listCmpWith cmp as_ bs
    | o => o

def pairCmpWith (cmp : α → α → Ordering) (a b : α × α) : Ordering :=
  match cmp a.1 b.1 with
  | .eq => cmp a.2 b.2
  | o => o

/-- One layer of the derived `Ord` on `ScObject`, parameterized by the
comparison used on nested values. -/
def scObjCmpWith (rec : ScVal → ScVal → Ordering) : ScObject → ScObject → Ordering
  | .vec a, .vec b => listCmpWith rec a b
  | .map a, .map b => listCmpWith (pairCmpWith rec) a b
  | .u64 a, .u64 b => compare a b
  | .i64 a, .i64 b => compare a b
  | .u128 alo ahi, .u128 blo bhi =>
    match compare alo blo with
    | .eq => compare ahi bhi
    | o => o
  | .i128 alo ahi, .i128 blo bhi =>
    match compare alo blo with
    | .eq => compare ahi bhi
    | o => o
  | .bytes a, .bytes b => listCmpWith (fun x y => compare x y) a b
  | .contractCode a, .contractCode b => listCmpWith (fun x y => compare x y) a b
  | .accountId a, .accountId b => listCmpWith (fun x y => compare x y) a b
  | a, b => compare a.rank b.rank

/-- Fueled derived `Ord` on `ScVal`: discriminant order first, then
payloads lexicographically. -/
def scValCmpF : Nat → ScVal → ScVal → Ordering
  | 0, _, _ => .eq
  | fuel+1, a, b =>
    match a, b with
    | .u63 x, .u63 y => compare x y
    | .u32 x, .u32 y => compare x y
    | .i32 x, .i32 y => compare x y
    | .static x, .static y => compare x.rank y.rank
    | .object none, .object none => .eq
    | .object none, .object (some _) => .lt
    | .object (some _), .object none => .gt
    | .object (some x), .object (some y) => scObjCmpWith (scValCmpF fuel) x y
    | .symbol x, .symbol y => compare x y
    | .bitset x, .bitset y => compare x y
    | .status x, .status y => compare x y
    | a, b => compare a.rank b.rank

/-- The SCV total order (derived `Ord` of the XDR types). The fuel bound
stands for the unbounded structural recursion of the source; values nested
beyond it would already overflow the stack of the Rust comparison. -/
def scValCmp (a b : ScVal) : Ordering := scValCmpF deepFuel a b

/-! ## ScMap construction (ScMap::sorted_from)

Modelled from the spec: the dependency's `ScMap::sorted_from` sorts the
entries by key with a stable sort under the SCV total order and validates
the result, rejecting maps whose keys are not strictly ascending ("every
`SCObject::Map` is sorted strictly ascending by key under the SCV total
order; encoders MUST sort"); the `VecM` bound caps the length at
256 000. -/

def insertEntry (e : ScVal × ScVal) : List (ScVal × ScVal) → List (ScVal × ScVal)
  | [] => [e]
  | x :: xs =>
    match scValCmp e.1 x.1 with
    | .lt => e :: x :: xs
    | _ => x :: insertEntry e xs

/-- Stable insertion sort by key under the SCV total order. -/
def sortEntries (l : List (ScVal × ScVal)) : List (ScVal × ScVal) :=
  l.foldr insertEntry []

/-- Keys strictly ascending under the SCV total order. -/
def strictlySortedKeys : List (ScVal × ScVal) → Bool
  | [] => Bool.true
  | [_] => Bool.true
  | a :: b :: rest =>
    match scValCmp a.1 b.1 with
    | .lt => strictlySortedKeys (b :: rest)
    | _ => Bool.false

def ScMap.sorted_from (entries : List (ScVal × ScVal)) :
    Except Unit (List (ScVal × ScVal)) :=
  let m := sortEntries entries
  if m.length ≤ 256000 ∧ strictlySortedKeys m then .ok m else .error ()

/-! ## Schema entries (soroban_env_host::xdr::ScSpec*) and Spec -/

inductive ScSpecTypeDef where
  | u64
  | i64
  | u128
  | i128
  | u32
  | i32
  | bool
  | symbol
  | bitset
  | status
  | bytes
  | bytesN (n : Nat)
  | vec (elementType : ScSpecTypeDef)
  | map (keyType valueType : ScSpecTypeDef)
  | set (elementType : ScSpecTypeDef)
  | tuple (valueTypes : List ScSpecTypeDef)
  | option (valueType : ScSpecTypeDef)
  | result (okType errorType : ScSpecTypeDef)
  | udt (name : String)
  | accountId

/-- `ScSpecTypeDef::name()`, used only inside an error payload. -/
def ScSpecTypeDef.typeName : ScSpecTypeDef → String
  | .u64 => "U64"
  | .i64 => "I64"
  | .u128 => "U128"
  | .i128 => "I128"
  | .u32 => "U32"
  | .i32 => "I32"
  | .bool => "Bool"
  | .symbol => "Symbol"
  | .bitset => "Bitset"
  | .status => "Status"
  | .bytes => "Bytes"
  | .bytesN _ => "BytesN"
  | .vec _ => "Vec"
  | .map _ _ => "Map"
  | .set _ => "Set"
  | .tuple _ => "Tuple"
  | .option _ => "Option"
  | .result _ _ => "Result"
  | .udt _ => "Udt"
  | .accountId => "AccountId"

structure ScSpecFunctionInputV0 where
  name : String
  type_ : ScSpecTypeDef

structure ScSpecFunctionV0 where
  name : String
  inputs : List ScSpecFunctionInputV0
  outputs : List ScSpecTypeDef

structure ScSpecUdtStructFieldV0 where
  name : String
  type_ : ScSpecTypeDef

structure ScSpecUdtStructV0 where
  name : String
  fields : List ScSpecUdtStructFieldV0

structure ScSpecUdtUnionCaseV0 where
  name : String
  type_ : Option ScSpecTypeDef

structure ScSpecUdtUnionV0 where
  name : String
  cases : List ScSpecUdtUnionCaseV0

structure ScSpecUdtEnumCaseV0 where
  name : String
  value : Nat

structure ScSpecUdtEnumV0 where
  name : String
  cases : List ScSpecUdtEnumCaseV0

inductive ScSpecEntry where
  | functionV0 (f : ScSpecFunctionV0)
  | udtStructV0 (s : ScSpecUdtStructV0)
  | udtUnionV0 (u : ScSpecUdtUnionV0)
  | udtEnumV0 (e : ScSpecUdtEnumV0)
  | udtErrorEnumV0 (e : ScSpecUdtEnumV0)

def ScSpecEntry.entryName : ScSpecEntry → String
  | .functionV0 x => x.name
  | .udtStructV0 x => x.name
  | .udtUnionV0 x => x.name
  | .udtEnumV0 x => x.name
  | .udtErrorEnumV0 x => x.name

/-- strval::Error (the source names it `Error`). `xdr`, `serde` and
`wasmSpec` carry no payload here; the wrapped foreign error values never
influence control flow. -/
inductive StrvalError where
  | unknown
  | invalidValue (t : Option ScSpecTypeDef)
  | enumCase (case_ union_ : String)
  | enumMissingSecondValue (case_ type_ : String)
  | enumConst (n : Nat)
  | enumConstTooLarge (n : Nat)
  | missingEntry (name : String)
  | xdr
  | serde
  | wasmSpec
  | temp (msg : String)

/-- Failure outcomes: a returned `Err(...)`, a Rust panic (`unwrap`,
`todo!`, out-of-bounds indexing), or exhaustion of the modelling fuel. -/
inductive Fail where
  | err (e : StrvalError)
  | panicked (msg : String)
  | outOfFuel

abbrev Res (α : Type) := Except Fail α

/-- strval::Spec — an optional ordered list of schema entries. -/
structure Spec where
  entries : Option (List ScSpecEntry)

def Spec.find (spec : Spec) (name : String) : Res ScSpecEntry :=
  match spec.entries with
  | none => .error (.err (.missingEntry name))
  | some specs =>
    match specs.find? (fun e => name == e.entryName) with
    | some e => .ok e
    | none => .error (.err (.missingEntry name))

def Spec.find_function (spec : Spec) (name : String) : Res ScSpecFunctionV0 :=
  match spec.find name with
  | .error e => .error e
  | .ok (.functionV0 f) => .ok f
  | .ok _ => .error (.err (.missingEntry name))

/-! ## 128-bit integer part conversions (From<u128>/From<i128> for ScObject) -/

def u128ScObjectOfNat (v : Nat) : ScObject := .u128 (v % 2 ^ 64) (v / 2 ^ 64)

def i128ScObjectOfInt (v : Int) : ScObject :=
  let u := (v % 2 ^ 128).toNat
  .i128 (u % 2 ^ 64) (u / 2 ^ 64)

def u128OfParts (lo hi : Nat) : Nat := hi * 2 ^ 64 + lo

def i128OfParts (lo hi : Nat) : Int :=
  let u : Nat := hi * 2 ^ 64 + lo
  if u < 2 ^ 127 then (u : Int) else (u : Int) - 2 ^ 128

/-- serde_json::Number::from on an i64: nonnegative values are stored as
the u64 case, negative ones as the i64 case. -/
def jnumOfI64 (v : Int) : JNum := if v < 0 then .i v else .u v.toNat

/-- Modelled from the spec: the source's final fallback arm deserializes
the raw JSON value into an `ScVal` via a generic serde derive
(`serde_json::from_value`). The spec documents no accepted input shape for
this fallback — only the `Json(source)` error kind for JSON that fits no
rule — so it is modelled as always failing with the serde error. No claim
in this development depends on a value accepted by this fallback. -/
def serde_from_value (_ : Json) : Res ScVal := .error (.err .serde)

/-- strval::from_json_primitives. -/
def from_json_primitives (v : Json) (t : ScSpecTypeDef) : Res ScVal :=
  match t, v with
  -- Boolean parsing
  | .bool, .bool Bool.true => .ok (.static .true)
  | .bool, .bool Bool.false => .ok (.static .false)
  -- Number parsing
  | .u128, .num n =>
    match n.as_u64 with
    | some u => .ok (.object (some (u128ScObjectOfNat u)))
    | none => .error (.err (.invalidValue (some t)))
  | .i128, .num n =>
    match n.as_i64 with
    | some i => .ok (.object (some (i128ScObjectOfInt i)))
    | none => .error (.err (.invalidValue (some t)))
  | .u128, .str s =>
    match rust_u128_from_str s with
    | some u => .ok (.object (some (u128ScObjectOfNat u)))
    | none => .error (.err (.invalidValue (some t)))
  | .i128, .str s =>
    match rust_i128_from_str s with
    | some i => .ok (.object (some (i128ScObjectOfInt i)))
    | none => .error (.err (.invalidValue (some t)))
  | .i32, .num n =>
    match n.as_i64 with
    | some i =>
      if -(2 ^ 31) ≤ i ∧ i ≤ 2 ^ 31 - 1 then .ok (.i32 i)
      else .error (.err (.invalidValue (some t)))
    | none => .error (.err (.invalidValue (some t)))
  | .i64, .num n =>
    match n.as_i64 with
    | some i => .ok (.object (some (.i64 i)))
    | none => .error (.err (.invalidValue (some t)))
  | .u32, .num n =>
    match n.as_u64 with
    | some u =>
      if u ≤ 2 ^ 32 - 1 then .ok (.u32 u)
      else .error (.err (.invalidValue (some t)))
    | none => .error (.err (.invalidValue (some t)))
  | .u64, .num n =>
    match n.as_u64 with
    | some u => .ok (.object (some (.u64 u)))
    | none => .error (.err (.invalidValue (some t)))
  -- Symbol parsing
  | .symbol, .str s =>
    if s.utf8ByteSize ≤ 10 then .ok (.symbol s)
    else .error (.err (.invalidValue (some t)))
  -- AccountID parsing
  | .accountId, .str s =>
    match strkey_decode s with
    | some key => .ok (.object (some (.accountId key)))
    | none => .error (.err (.invalidValue (some t)))
  -- Bytes parsing
  | .bytesN n, .str s =>
    match strkey_decode s with
    | some key => .ok (.object (some (.bytes key)))
    | none =>
      match padded_hex_from_str s n with
      | some b =>
        if b.length ≤ 256000 then .ok (.object (some (.bytes b)))
        else .error (.err (.invalidValue (some t)))
      | none => .error (.err (.invalidValue (some t)))
  | .bytes, .str s =>
    match hex_decode s with
    | some b =>
      if b.length ≤ 256000 then .ok (.object (some (.bytes b)))
      else .error (.err (.invalidValue (some t)))
    | none => .error (.err (.invalidValue (some t)))
  | .bytes, .arr raw | .bytesN _, .arr raw =>
    match collectM (fun item =>
      match item with
      | .num n =>
        match n.as_u64 with
        | some u => if u ≤ 255 then some u else none
        | none => none
      | _ => (none : Option Nat)) raw with
    | some b =>
      if b.length ≤ 256000 then .ok (.object (some (.bytes b)))
      else .error (.err .xdr)
    | none => .error (.err (.invalidValue (some t)))
  | _, raw => serde_from_value raw

/-- strval::parse_const_enum. -/
def parse_const_enum (num : JNum) (enum_ : ScSpecUdtEnumV0) : Res ScVal :=
  match num.as_u64 with
  | none => .error (.err .unknown)
  | some n =>
    if n ≤ 4294967295 then
      match enum_.cases.find? (fun c => c.value == n) with
      | some c => .ok (.u32 c.value)
      | none => .error (.err (.enumConst n))
    else .error (.err (.enumConstTooLarge n))

/-! ## The structured encode codec (Spec::from_string / Spec::from_json)

The mutually recursive source functions are embedded as bodies
parameterized over the recursive call `go`, tied together by a single
fuel-indexed recursion `Spec.encode_go`. `SJ` distinguishes the textual
entry point (`from_string`) from the JSON one (`from_json`). -/

inductive SJ where
  | str (s : String)
  | json (v : Json)

/-- strval::Spec::parse_map. -/
def Spec.parse_map (_spec : Spec) (go : SJ → ScSpecTypeDef → Res ScVal)
    (key_type value_type : ScSpecTypeDef) (value_map : List (String × Json)) : Res ScVal :=
  match collectM (fun kv => do
    let key ← go (.str kv.1) key_type
    let val ← go (.json kv.2) value_type
    pure (key, val)) value_map with
  | .error e => .error e
  | .ok parsed =>
    match ScMap.sorted_from parsed with
    | .ok m => .ok (.object (some (.map m)))
    | .error _ => .error (.err .xdr)

/-- strval::Spec::parse_strukt. -/
def Spec.parse_strukt (_spec : Spec) (go : SJ → ScSpecTypeDef → Res ScVal)
    (strukt : ScSpecUdtStructV0) (map : List (String × Json)) : Res ScVal :=
  match collectM (fun f => do
    match jsonObjGet map f.name with
    | none => throw (Fail.err .unknown)
    | some v => do
      let val ← go (.json v) f.type_
      if f.name.utf8ByteSize ≤ 10 then pure (ScVal.symbol f.name, val)
      else throw (Fail.panicked "StringM::from_str(name).unwrap()")) strukt.fields with
  | .error e => .error e
  | .ok items =>
    match ScMap.sorted_from items with
    | .ok m => .ok (.object (some (.map m)))
    | .error _ => .error (.err .xdr)

/-- strval::Spec::parse_tuple_strukt: zips the declared fields with the
array elements, silently truncating to the shorter of the two. -/
def Spec.parse_tuple_strukt (_spec : Spec) (go : SJ → ScSpecTypeDef → Res ScVal)
    (strukt : ScSpecUdtStructV0) (array : List Json) : Res ScVal :=
  match collectM (fun fv => go (.json fv.2) fv.1.type_) (strukt.fields.zip array) with
  | .error e => .error e
  | .ok items =>
    if items.length ≤ 256000 then .ok (.object (some (.vec items)))
    else .error (.err .xdr)

/-- strval::Spec::parse_union. -/
def Spec.parse_union (_spec : Spec) (go : SJ → ScSpecTypeDef → Res ScVal)
    (union_ : ScSpecUdtUnionV0) (value : Json) : Res ScVal := do
  let (enum_case, kind) ←
    match value with
    | .str s => pure (s, (none : Option Json))
    | .obj o =>
      if o.length = 1 then
        match o with
        | [(k, v)] => pure (k, some v)
        | _ => throw (Fail.panicked "unreachable")
      else throw (Fail.panicked "todo!()")
    | _ => throw (Fail.panicked "todo!()")
  match union_.cases.find? (fun c => enum_case == c.name) with
  | none => .error (.err (.enumCase enum_case union_.name))
  | some case_ =>
    match kind with
    | some value => do
      match case_.type_ with
      | none => throw (Fail.panicked "type_.as_ref().unwrap()")
      | some ty => do
        let val ← go (.json value) ty
        if enum_case.utf8ByteSize ≤ 10 then
          let s_vec := [ScVal.symbol enum_case, val]
          if s_vec.length ≤ 256000 then .ok (.object (some (.vec s_vec)))
          else .error (.err .xdr)
        else .error (.err .xdr)
    | none =>
      if case_.name.utf8ByteSize ≤ 10 then
        let s_vec := [ScVal.symbol case_.name]
        if s_vec.length ≤ 256000 then .ok (.object (some (.vec s_vec)))
        else .error (.err .xdr)
      else .error (.err .xdr)

/-- strval::Spec::parse_tuple. -/
def Spec.parse_tuple (_spec : Spec) (go : SJ → ScSpecTypeDef → Res ScVal)
    (t : ScSpecTypeDef) (value_types : List ScSpecTypeDef) (items : List Json) : Res ScVal := do
  if items.length ≠ value_types.length then
    .error (.err (.invalidValue (some t)))
  else do
    let parsed ← collectM (fun iv => go (.json iv.1) iv.2) (items.zip value_types)
    if parsed.length ≤ 256000 then .ok (.object (some (.vec parsed)))
    else .error (.err .xdr)

/-- strval::Spec::parse_udt. -/
def Spec.parse_udt (spec : Spec) (go : SJ → ScSpecTypeDef → Res ScVal)
    (name : String) (value : Json) : Res ScVal :=
  match spec.find name with
  | .error e => .error e
  | .ok entry =>
    match entry, value with
    | .udtStructV0 strukt, .obj m => spec.parse_strukt go strukt m
    | .udtStructV0 strukt, .arr a => spec.parse_tuple_strukt go strukt a
    | .udtUnionV0 union_, .str s => spec.parse_union go union_ (.str s)
    | .udtUnionV0 union_, .obj o => spec.parse_union go union_ (.obj o)
    | .udtEnumV0 enum_, .num n => parse_const_enum n enum_
    | _, _ => .error (.panicked "todo!(Not implemented)")

/-- strval::Spec::from_json, one recursion layer. -/
def Spec.from_json_body (spec : Spec) (go : SJ → ScSpecTypeDef → Res ScVal)
    (v : Json) (t : ScSpecTypeDef) : Res ScVal :=
  match t, v with
  | .bool, _ | .u128, _ | .i128, _ | .i32, _ | .i64, _ | .u32, _ | .u64, _
  | .symbol, _ | .accountId, _ | .bytes, _ | .bytesN _, _ =>
    from_json_primitives v t
  -- Vec parsing
  | .vec elementType, .arr raw => do
    let converted ← collectM (fun item => go (.json item) elementType) raw
    if converted.length ≤ 256000 then .ok (.object (some (.vec converted)))
    else .error (.err .xdr)
  -- Map parsing
  | .map keyType valueType, .obj raw => spec.parse_map go keyType valueType raw
  -- Option parsing
  | .option _, .null => .ok (.static .void)
  | .option valueType, _ => do
    let inner ← go (.json v) valueType
    match inner with
    | .object (some obj) => .ok (.object (some obj))
    | _ => .error (.err (.invalidValue (some (.option valueType))))
  -- Tuple parsing
  | .tuple valueTypes, .arr raw => spec.parse_tuple go (.tuple valueTypes) valueTypes raw
  | .udt name, _ => spec.parse_udt go name v
  | _, raw => serde_from_value raw

/-- strval::Spec::from_string, one recursion layer. -/
def Spec.from_string_body (spec : Spec) (go : SJ → ScSpecTypeDef → Res ScVal)
    (s : String) (t : ScSpecTypeDef) : Res ScVal :=
  match t with
  | .option valueType =>
    if s = "null" then .ok (.static .void)
    else go (.str s) valueType
  | _ =>
    match json_from_str s with
    | .ok raw => go (.json raw) t
    | .error _ =>
      match t with
      | .symbol | .bytes | .bytesN _ | .u128 | .i128 | .accountId =>
        go (.json (.str s)) t
      | .udt name =>
        match spec.find name with
        | .error e => .error e
        | .ok (.udtUnionV0 _) => go (.json (.str s)) t
        | .ok (.udtStructV0 _) => go (.json (.str s)) t
        | .ok _ => .error (.err .serde)
      | _ => .error (.err .serde)

/-- The tied recursion of `from_string`/`from_json` and their helpers. -/
def Spec.encode_go (spec : Spec) : Nat → SJ → ScSpecTypeDef → Res ScVal
  | 0, _, _ => .error .outOfFuel
  | fuel+1, .str s, t => spec.from_string_body (spec.encode_go fuel) s t
  | fuel+1, .json v, t => spec.from_json_body (spec.encode_go fuel) v t

/-- strval::Spec::from_string. -/
def Spec.from_string (spec : Spec) (fuel : Nat) (s : String) (t : ScSpecTypeDef) : Res ScVal :=
  spec.encode_go fuel (.str s) t

/-- strval::Spec::from_json. -/
def Spec.from_json (spec : Spec) (fuel : Nat) (v : Json) (t : ScSpecTypeDef) : Res ScVal :=
  spec.encode_go fuel (.json v) t

/-! ## The structured decode codec (Spec::xdr_to_json and helpers) -/

/-- strval::Spec::vec_m_to_json. -/
def Spec.vec_m_to_json (_spec : Spec) (go : ScVal → ScSpecTypeDef → Res Json)
    (vec_m : List ScVal) (type_ : ScSpecTypeDef) : Res Json := do
  let items ← collectM (fun sc_val => go sc_val type_) vec_m
  .ok (.arr items)

/-- strval::Spec::sc_map_to_json: the key's JSON is stringified
(`to_string`), the pairs are collected into a `serde_json::Map`. -/
def Spec.sc_map_to_json (_spec : Spec) (go : ScVal → ScSpecTypeDef → Res Json)
    (sc_map : List (ScVal × ScVal)) (keyType valueType : ScSpecTypeDef) : Res Json := do
  let pairs ← collectM (fun e => do
    let key_j ← go e.1 keyType
    let val_value ← go e.2 valueType
    pure (key_j.render, val_value)) sc_map
  .ok (.obj (pairs.foldl (fun acc kv => objInsert kv.1 kv.2 acc) []))

/-- strval::Spec::udt_to_json. The struct arm zips the declared fields
with the map entries positionally and collects the field names with the
entry values into a `serde_json::Map`. -/
def Spec.udt_to_json (spec : Spec) (go : ScVal → ScSpecTypeDef → Res Json)
    (name : String) (sc_obj : ScObject) : Res Json :=
  match spec.find name with
  | .error e => .error e
  | .ok udt =>
    match udt, sc_obj with
    | .udtStructV0 strukt, .map m => do
      let pairs ← collectM (fun fe => do
        let val ← go fe.2.2 fe.1.type_
        pure (fe.1.name, val)) (strukt.fields.zip m)
      .ok (.obj (pairs.foldl (fun acc kv => objInsert kv.1 kv.2 acc) []))
    | .udtStructV0 strukt, .vec vec_ => do
      let items ← collectM (fun fe => go fe.2 fe.1.type_) (strukt.fields.zip vec_)
      .ok (.arr items)
    | .udtUnionV0 union_, .vec vec_ =>
      match vec_ with
      | [] => .error (.panicked "&v[0] out of bounds")
      | val :: rest =>
        match val with
        | .symbol symbol_ =>
          match union_.cases.find? (fun c => c.name == symbol_) with
          | none => .error (.err .unknown)
          | some case_ =>
            match case_.type_ with
            | some type_ =>
              match rest.head? with
              | none => .error (.err (.enumMissingSecondValue case_.name type_.typeName))
              | some second_val => do
                let payload ← go second_val type_
                .ok (.obj (objInsert case_.name payload []))
            | none => .ok (.str case_.name)
        | _ => .error (.err .unknown)
    | .udtEnumV0 _, _ => .error (.panicked "todo!()")
    | _, _ => .error (.panicked "todo!(Not implemented)")

/-- strval::Spec::sc_object_to_json, one recursion layer. -/
def Spec.sc_object_to_json_body (spec : Spec) (go : ScVal → ScSpecTypeDef → Res Json)
    (obj : ScObject) (spec_type : ScSpecTypeDef) : Res Json :=
  match obj, spec_type with
  | .vec vec_m, .vec elementType => spec.vec_m_to_json go vec_m elementType
  | .vec _, .udt name => spec.udt_to_json go name obj
  | .map _, .udt name => spec.udt_to_json go name obj
  | .map m, .map keyType valueType => spec.sc_map_to_json go m keyType valueType
  | .map _, .set _ => .error (.panicked "todo!()")
  | .u64 u, .u64 => .ok (.num (.u u))
  | .i64 i, .i64 => .ok (.num (jnumOfI64 i))
  | .u128 lo hi, .u128 =>
    -- Always output u128s as strings
    .ok (.str (natToDecimal (u128OfParts lo hi)))
  | .i128 lo hi, .i128 =>
    -- Always output i128s as strings
    .ok (.str (intToDecimal (i128OfParts lo hi)))
  | .bytes b, .bytes => .ok (.str (to_lower_hex b))
  | .bytes _, .bytesN _ => .error (.panicked "todo!()")
  | .bytes _, .udt _ => .error (.panicked "todo!()")
  | .contractCode _, _ => .error (.panicked "todo!()")
  | .accountId key, .accountId => .ok (.str (strkey_encode key))
  | _, _ => .error (.err .unknown)

/-- strval::Spec::xdr_to_json, one recursion layer. Symbols hold valid
strings by construction in this model, so the `from_utf8` check cannot
fail here. -/
def Spec.xdr_to_json_body (spec : Spec) (go : ScVal → ScSpecTypeDef → Res Json)
    (res : ScVal) (output : ScSpecTypeDef) : Res Json :=
  match res, output with
  | .static .true, _ => .ok (.bool Bool.true)
  | .static .false, _ => .ok (.bool Bool.false)
  | .static .void, _ => .ok .null
  | .static .ledgerKeyContractCode, _ => .error (.err (.invalidValue none))
  | .u63 v, _ => .ok (.num (jnumOfI64 v))
  | .u32 v, _ => .ok (.num (.u v))
  | .i32 v, _ => .ok (.num (jnumOfI64 v))
  | .symbol v, _ => .ok (.str v)
  | .object none, .option _ => .ok .null
  | .object (some inner), .option valueType => spec.sc_object_to_json_body go inner valueType
  | .object (some inner), type_ => spec.sc_object_to_json_body go inner type_
  | .bitset _, .bitset => .error (.panicked "todo!()")
  | .status _, .status => .error (.panicked "todo!()")
  | _, _ => .error (.panicked "todo!(no matching type)")

/-- The tied recursion of `xdr_to_json` and its helpers. -/
def Spec.xdr_to_json_go (spec : Spec) : Nat → ScVal → ScSpecTypeDef → Res Json
  | 0, _, _ => .error .outOfFuel
  | fuel+1, v, t => spec.xdr_to_json_body (spec.xdr_to_json_go fuel) v t

/-- strval::Spec::xdr_to_json. -/
def Spec.xdr_to_json (spec : Spec) (fuel : Nat) (v : ScVal) (t : ScSpecTypeDef) : Res Json :=
  spec.xdr_to_json_go fuel v t

/-- strval::Spec::sc_object_to_json (wrapper fixing the recursion). -/
def Spec.sc_object_to_json (spec : Spec) (fuel : Nat) (obj : ScObject)
    (t : ScSpecTypeDef) : Res Json :=
  spec.sc_object_to_json_body (spec.xdr_to_json_go fuel) obj t

/-! ## Invocation assembly (Spec::encode_args / Spec::decode_args) -/

/-- The per-input encoding loop of `encode_args`: look the input's name up
in the JSON object (`unwrap` panics when absent), then encode it at the
declared type. -/
def Spec.encode_args_inputs (spec : Spec) (fuel : Nat) (args : List (String × Json)) :
    List ScSpecFunctionInputV0 → Res (List ScVal)
  | [] => .ok []
  | input :: rest =>
    match jsonObjGet args input.name with
    | none => .error (.panicked "args.get(&input.name).unwrap()")
    | some arg =>
      match spec.from_json fuel arg input.type_ with
      | .error e => .error e
      | .ok v =>
        match spec.encode_args_inputs fuel args rest with
        | .error e => .error e
        | .ok vs => .ok (v :: vs)

/-- strval::Spec::encode_args. -/
def Spec.encode_args (spec : Spec) (fuel : Nat) (contract_id : List Nat)
    (func_name : String) (json_args : String) : Res (List ScVal) :=
  match spec.find_function func_name with
  | .error e => .error e
  | .ok func =>
    match json_from_str json_args with
    | .error _ => .error (.err (.temp ("JSON Failed to parse " ++ json_args)))
    | .ok value =>
      match value with
      | .obj args =>
        match spec.encode_args_inputs fuel args func.inputs with
        | .error e => .error e
        | .ok encoded_args =>
          if func_name.utf8ByteSize ≤ 10 then
            let res := ScVal.object (some (.bytes contract_id)) ::
              ScVal.symbol func_name :: encoded_args
            if res.length ≤ 256000 then .ok res
            else .error (.panicked "res.try_into().unwrap()")
          else .error (.panicked "func_name.try_into().unwrap()")
      | _ => .error (.panicked "value.as_object().unwrap()")

def readU32BE : List Nat → Option (Nat × List Nat)
  | b0 :: b1 :: b2 :: b3 :: rest =>
    some (b0 * 16777216 + b1 * 65536 + b2 * 256 + b3, rest)
  | _ => none

def readU64BE : List Nat → Option (Nat × List Nat)
  | b0 :: b1 :: b2 :: b3 :: b4 :: b5 :: b6 :: b7 :: rest =>
    some (((((((b0 * 256 + b1) * 256 + b2) * 256 + b3) * 256 + b4) * 256 + b5) * 256 + b6) * 256 + b7,
      rest)
  | _ => none

/-- Modelled from the spec: canonical XDR decoding (`ScVal::from_xdr`) of
the scalar `ScVal` fragment — "big-endian fixed-width integers,
4-byte-aligned variable-length blobs with 32-bit length prefixes, sum
types carrying a 32-bit discriminant". Symbols are capped at 10 bytes and
modelled for ASCII payloads; the `Object`, `Bitset` and `Status` arms are
outside the modelled fragment and decode to `none`, which no claim
exercises. -/
def scval_from_xdr (bytes : List Nat) : Option ScVal := do
  let (disc, rest) ← readU32BE bytes
  let (v, rest2) ←
    match disc with
    | 0 => do
      let (u, r) ← readU64BE rest
      let i : Int := if u < 2 ^ 63 then (u : Int) else (u : Int) - 2 ^ 64
      pure (ScVal.u63 i, r)
    | 1 => do
      let (u, r) ← readU32BE rest
      pure (ScVal.u32 u, r)
    | 2 => do
      let (u, r) ← readU32BE rest
      let i : Int := if u < 2 ^ 31 then (u : Int) else (u : Int) - 2 ^ 32
      pure (ScVal.i32 i, r)
    | 3 => do
      let (u, r) ← readU32BE rest
      match u with
      | 0 => pure (ScVal.static .void, r)
      | 1 => pure (ScVal.static .true, r)
      | 2 => pure (ScVal.static .false, r)
      | 3 => pure (ScVal.static .ledgerKeyContractCode, r)
      | _ => none
    | 5 => do
      let (len, r) ← readU32BE rest
      if len ≤ 10 then
        let content := r.take len
        let padLen := (4 - len % 4) % 4
        let padding := (r.drop len).take padLen
        let r2 := (r.drop len).drop padLen
        if content.length = len ∧ padding = List.replicate padLen 0 ∧
            content.all (fun b => b < 128) then
          pure (ScVal.symbol (String.mk (content.map Char.ofNat)), r2)
        else none
      else none
    | _ => none
  if rest2 = [] then some v else none

/-- strval::Spec::decode_args: `find_function(..).unwrap()`,
`ScVal::from_xdr(..).unwrap()`, index `outputs[0]`, decode, and serialize
the JSON value with `Value::to_string()`. -/
def Spec.decode_args (spec : Spec) (fuel : Nat) (func_name : String)
    (xdr_args : List Nat) : Res String :=
  match spec.find_function func_name with
  | .error _ => .error (.panicked "find_function(func_name).unwrap()")
  | .ok func =>
    match scval_from_xdr xdr_args with
    | none => .error (.panicked "ScVal::from_xdr(xdr_args).unwrap()")
    | some args =>
      match func.outputs with
      | [] => .error (.panicked "func.outputs[0] out of bounds")
      | out0 :: _ => do
        let value ← spec.xdr_to_json fuel args out0
        .ok value.render

/-! ## Ledger seeding helpers (utils.rs) -/

inductive LedgerKey where
  | account (account_id : List Nat)
  | contractData (contract_id : List Nat) (key : ScVal)
  | contractCode (hash : List Nat)

inductive LedgerEntryData where
  | account (account_id : List Nat)
  | contractData (contract_id : List Nat) (key : ScVal) (val : ScVal)
  | contractCode (code : List Nat) (hash : List Nat)

structure LedgerEntry where
  last_modified_ledger_seq : Nat
  data : LedgerEntryData

/-- Derived structural equality on ledger keys (`**k == code_key`). The
`ScVal` component compares via the SCV total order, with which the derived
`PartialEq` agrees. -/
def ledgerKeyEqb : LedgerKey → LedgerKey → Bool
  | .account a, .account b => a == b
  | .contractData c1 k1, .contractData c2 k2 => c1 == c2 && (scValCmp k1 k2 == Ordering.eq)
  | .contractCode h1, .contractCode h2 => h1 == h2
  | _, _ => Bool.false

def u32be (n : Nat) : List Nat :=
  [n / 16777216 % 256, n / 65536 % 256, n / 256 % 256, n % 256]

/-- Modelled from the spec: `InstallContractCodeArgs { code }.to_xdr()` —
the canonical binary framing of `{ code: bytes }`: a 32-bit length prefix,
the bytes, and zero padding to a 4-byte boundary; the `BytesM` conversion
enforces the 256 000-byte cap. -/
def install_contract_code_args_xdr (code : List Nat) : Option (List Nat) :=
  if code.length ≤ 256000 then
    some (u32be code.length ++ code ++ List.replicate ((4 - code.length % 4) % 4) 0)
  else none

/-- utils::contract_hash, parameterized by the SHA-256 compression
function, which is an external pure function of the framed bytes. -/
def contract_hash (sha256 : List Nat → List Nat) (contract : List Nat) :
    Except Unit (List Nat) :=
  match install_contract_code_args_xdr contract with
  | some args_xdr => .ok (sha256 args_xdr)
  | none => .error ()

/-- The `for (k, e) in entries.iter_mut()` loop: overwrite the entry of
the first key equal to `code_key`, or report that none matched. -/
def update_matching_entry (code_key : LedgerKey) (code_entry : LedgerEntry) :
    List (LedgerKey × LedgerEntry) → Option (List (LedgerKey × LedgerEntry))
  | [] => none
  | (k, e) :: rest =>
    if ledgerKeyEqb k code_key then some ((k, code_entry) :: rest)
    else
      match update_matching_entry code_key code_entry rest with
      | some rest2 => some ((k, e) :: rest2)
      | none => none

/-- utils::add_contract_code_to_ledger_entries, parameterized by SHA-256;
returns the hash together with the updated entry list. -/
def add_contract_code_to_ledger_entries (sha256 : List Nat → List Nat)
    (entries : List (LedgerKey × LedgerEntry)) (contract : List Nat) :
    Except Unit (List Nat × List (LedgerKey × LedgerEntry)) :=
  match contract_hash sha256 contract with
  | .error e => .error e
  | .ok hash =>
    if contract.length ≤ 256000 then
      match update_matching_entry (LedgerKey.contractCode hash)
          { last_modified_ledger_seq := 0, data := .contractCode contract hash } entries with
      | some entries2 => .ok (hash, entries2)
      | none => .ok (hash, entries ++
          [(LedgerKey.contractCode hash,
            { last_modified_ledger_seq := 0, data := .contractCode contract hash })])
    else .error ()

/-! ## Shared concrete fixtures for the claim theorems -/

set_option maxRecDepth 100000

/-- A schema with no entries (`Spec::default()`). -/
def emptySpec : Spec := ⟨none⟩

/-- A schema holding a struct `S` whose declared field order `b, a`
differs from the sorted order of its field-name symbols, and a function
`f(x: U32) -> Symbol`. -/
def structSpec : Spec := ⟨some
  [.udtStructV0 ⟨"S", [⟨"b", .u32⟩, ⟨"a", .u32⟩]⟩,
   .functionV0 ⟨"f", [⟨"x", .u32⟩], [.symbol]⟩]⟩

/-! ## Helper lemmas -/

theorem collectM_ok_length {ε : Type} (f : α → Except ε β) :
    ∀ (l : List α) (l' : List β), collectM f l = .ok l' → l'.length = l.length := by
  intro l
  induction l with
  | nil =>
    intro l' h
    simp only [collectM, pure, Except.pure] at h
    cases h
    rfl
  | cons a as_ ih =>
    intro l' h
    simp only [collectM, bind, Except.bind, pure, Except.pure] at h
    cases hfa : f a with
    | error e => rw [hfa] at h; cases h
    | ok b =>
      rw [hfa] at h
      cases hrest : collectM f as_ with
      | error e => rw [hrest] at h; cases h
      | ok bs =>
        rw [hrest] at h
        cases h
        simp [ih bs hrest]

theorem sorted_from_ok (l m : List (ScVal × ScVal)) (h : ScMap.sorted_from l = .ok m) :
    strictlySortedKeys m = Bool.true := by
  simp only [ScMap.sorted_from] at h
  split at h
  · cases h
    rename_i hcond
    exact hcond.2
  · cases h

/-- C2 (amended): the null arm of `Option` parsing yields `Static(Void)`;
a non-null value is encoded at the inner type and must come out as an
`Object(Some(_))`, which is returned unchanged; any non-object inner
encoding is rejected with `InvalidValue(Option(t))`. -/
theorem c2_option_discipline :
    (∀ (spec : Spec) (fuel : Nat) (t : ScSpecTypeDef),
      spec.from_json (fuel + 1) .null (.option t) = .ok (.static .void)) ∧
    (∀ (spec : Spec) (fuel : Nat) (t : ScSpecTypeDef) (j : Json) (o : ScObject),
      j ≠ .null → spec.from_json fuel j t = .ok (.object (some o)) →
      spec.from_json (fuel + 1) j (.option t) = .ok (.object (some o))) ∧
    (∀ (spec : Spec) (fuel : Nat) (t : ScSpecTypeDef) (j : Json) (w : ScVal),
      j ≠ .null → spec.from_json fuel j t = .ok w → (∀ o, w ≠ .object (some o)) →
      spec.from_json (fuel + 1) j (.option t) =
        .error (.err (.invalidValue (some (.option t))))) ∧
    (∀ (spec : Spec) (fuel : Nat) (t : ScSpecTypeDef) (j : Json) (v' : ScVal),
      j ≠ .null → spec.from_json (fuel + 1) j (.option t) = .ok v' →
      ∃ o, v' = .object (some o)) := by
  refine ⟨fun spec fuel t => rfl, ?_, ?_, ?_⟩
  · intro spec fuel t j o hj h
    simp only [Spec.from_json] at h ⊢
    cases j <;> first
      | exact absurd rfl hj
      | (simp only [Spec.encode_go, Spec.from_json_body, bind, Except.bind]
         rw [h])
  · intro spec fuel t j w hj h hw
    simp only [Spec.from_json] at h ⊢
    cases j <;> first
      | exact absurd rfl hj
      | (simp only [Spec.encode_go, Spec.from_json_body, bind, Except.bind]
         rw [h]
         cases w with
         | object o =>
           cases o with
           | none => rfl
           | some obj => exact absurd rfl (hw obj)
         | u63 n => rfl
         | u32 n => rfl
         | i32 n => rfl
         | static s => rfl
         | symbol s => rfl
         | bitset n => rfl
         | status n => rfl)
  · intro spec fuel t j v' hj h
    simp only [Spec.from_json] at h
    cases j <;> first
      | exact absurd rfl hj
      | (simp only [Spec.encode_go, Spec.from_json_body, bind, Except.bind] at h
         generalize hg : spec.encode_go fuel (SJ.json _) t = r at h
         cases r with
         | error e => cases h
         | ok w =>
           cases w with
           | object o =>
             cases o with
             | none => cases h
             | some obj => cases h; exact ⟨obj, rfl⟩
           | u63 n => cases h
           | u32 n => cases h
           | i32 n => cases h
           | static s => cases h
           | symbol s => cases h
           | bitset n => cases h
           | status n => cases h)

/-- C2 (counterexample): the claim's `from_json(null, Option(t)) =
Object(None)` is false — the code returns `Static(Void)`, a different SCV
value. -/
theorem c2_null_not_object_none :
    emptySpec.from_json 10 .null (.option .u32) = .ok (.static .void) ∧
    ScVal.static .void ≠ ScVal.object none :=
  ⟨rfl, fun h => ScVal.noConfusion h⟩

/-- C2 witness: at `Option(U64)` the number 5 encodes to
`Object(Some(U64(5)))`, and at `Option(U32)` (whose inner encoding
`U32(5)` is not an `SCObject`) it fails with `InvalidValue(Option(U32))`;
both via the amended theorem. -/
theorem c2_option_discipline_witness :
    emptySpec.from_json (9 + 1) (.num (.u 5)) (.option .u64) =
      .ok (.object (some (.u64 5))) ∧
    emptySpec.from_json (9 + 1) (.num (.u 5)) (.option .u32) =
      .error (.err (.invalidValue (some (.option .u32)))) :=
  ⟨c2_option_discipline.2.1 emptySpec 9 .u64 (.num (.u 5)) (.u64 5) nofun rfl,
   c2_option_discipline.2.2.1 emptySpec 9 .u32 (.num (.u 5)) (.u32 5) nofun rfl
     (fun _ h => ScVal.noConfusion h)⟩

/-- C9: for any string other than the literal `"null"`, `from_string` at
`Option(t)` strips the option and encodes at the inner type, returning the
inner encoding unwrapped (so the `Object(Some(_))` discipline of
`from_json` does not apply on the textual path). -/
theorem c9_from_string_option_strip (spec : Spec) (fuel : Nat) (s : String)
    (t : ScSpecTypeDef) (hs : s ≠ "null") :
    spec.from_string (fuel + 1) s (.option t) = spec.from_string fuel s t := by
  simp only [Spec.from_string, Spec.encode_go, Spec.from_string_body, if_neg hs]

/-- C9 witness: `from_string("world", Option(Symbol))` equals
`from_string("world", Symbol)`, both yielding the bare `Symbol("world")`
rather than an `Object(Some(_))`. -/
theorem c9_from_string_option_strip_witness :
    emptySpec.from_string (10 + 1) "world" (.option .symbol) =
      emptySpec.from_string 10 "world" .symbol ∧
    emptySpec.from_string 10 "world" .symbol = .ok (.symbol "world") :=
  ⟨c9_from_string_option_strip emptySpec 10 "world" .symbol (by decide), rfl⟩

/-- C10: `parse_tuple_strukt` never checks arity — it zips the declared
fields with the array elements, so a successful parse yields an
`Object(Vec(...))` of `min(fields, elements)` entries, silently dropping
the surplus on either side. -/
theorem c10_tuple_strukt_truncates (spec : Spec) (go : SJ → ScSpecTypeDef → Res ScVal)
    (strukt : ScSpecUdtStructV0) (array : List Json) (v : ScVal)
    (h : Spec.parse_tuple_strukt spec go strukt array = .ok v) :
    ∃ items, v = .object (some (.vec items)) ∧
      items.length = min strukt.fields.length array.length := by
  unfold Spec.parse_tuple_strukt at h
  split at h
  · exact Except.noConfusion h
  · rename_i items hcoll
    split at h
    · cases h
      refine ⟨items, rfl, ?_⟩
      rw [collectM_ok_length _ _ _ hcoll]
      exact List.length_zip ..
    · exact Except.noConfusion h

/-- C10 witness: a struct with 2 declared fields, fed a 1-element JSON
array, parses successfully (no arity error) into a 1-element vector. -/
theorem c10_tuple_strukt_truncates_witness :
    ∃ items, ScVal.object (some (.vec [.u32 7])) = .object (some (.vec items)) ∧
      items.length = min 2 1 :=
  c10_tuple_strukt_truncates structSpec (structSpec.encode_go 10)
    ⟨"S", [⟨"b", .u32⟩, ⟨"a", .u32⟩]⟩ [.num (.u 7)] (.object (some (.vec [.u32 7]))) rfl

/-- C4: every map constructed by the encoder — `parse_map` for `Map` types
and `parse_strukt` for struct UDTs, the only two sites that build
`SCObject::Map` — has its entries strictly ascending by key under the SCV
total order, and the concrete example sorts `b, a` into keys `a, b`. -/
theorem c4_maps_sorted :
    (∀ (spec : Spec) (go : SJ → ScSpecTypeDef → Res ScVal) (kt vt : ScSpecTypeDef)
        (vm : List (String × Json)) (v : ScVal),
      Spec.parse_map spec go kt vt vm = .ok v →
      ∃ es, v = .object (some (.map es)) ∧ strictlySortedKeys es = Bool.true) ∧
    (∀ (spec : Spec) (go : SJ → ScSpecTypeDef → Res ScVal) (strukt : ScSpecUdtStructV0)
        (m : List (String × Json)) (v : ScVal),
      Spec.parse_strukt spec go strukt m = .ok v →
      ∃ es, v = .object (some (.map es)) ∧ strictlySortedKeys es = Bool.true) ∧
    emptySpec.from_string 10 "\x7b\"b\":1,\"a\":2\x7d" (.map .symbol .u32) =
      .ok (.object (some (.map [(.symbol "a", .u32 2), (.symbol "b", .u32 1)]))) := by
  refine ⟨?_, ?_, rfl⟩
  · intro spec go kt vt vm v h
    unfold Spec.parse_map at h
    split at h
    · exact Except.noConfusion h
    · rename_i parsed hcoll
      split at h
      · rename_i m hs
        cases h
        exact ⟨m, rfl, sorted_from_ok _ _ hs⟩
      · exact Except.noConfusion h
  · intro spec go strukt m v h
    unfold Spec.parse_strukt at h
    split at h
    · exact Except.noConfusion h
    · rename_i items hcoll
      split at h
      · rename_i mm hs
        cases h
        exact ⟨mm, rfl, sorted_from_ok _ _ hs⟩
      · exact Except.noConfusion h

/-- C4 witness: a two-entry map given in the order `b, a` parses into a
map whose keys come out strictly sorted as `a, b`. -/
theorem c4_maps_sorted_witness :
    ∃ es, ScVal.object (some (.map [(.symbol "a", .u32 2), (.symbol "b", .u32 1)])) =
        .object (some (.map es)) ∧ strictlySortedKeys es = Bool.true :=
  c4_maps_sorted.1 emptySpec (emptySpec.encode_go 10) .symbol .u32
    [("b", .num (.u 1)), ("a", .num (.u 2))]
    (.object (some (.map [(.symbol "a", .u32 2), (.symbol "b", .u32 1)]))) rfl

/-! ## Decimal rendering/parsing round-trip lemmas (for C5) -/

/-- Recursive specification of the decimal digit characters of `n`. -/
def decCharsSpec (n : Nat) : List Char :=
  if n < 10 then [Nat.digitChar n] else decCharsSpec (n / 10) ++ [Nat.digitChar (n % 10)]
decreasing_by exact Nat.div_lt_self (by omega) (by omega)

theorem natToDecCharsF_eq (fuel : Nat) :
    ∀ (n : Nat) (acc : List Char), n < fuel →
      natToDecCharsF fuel n acc = decCharsSpec n ++ acc := by
  induction fuel with
  | zero => intro n acc h; omega
  | succ fuel ih =>
    intro n acc h
    rw [natToDecCharsF, decCharsSpec]
    by_cases h10 : n < 10
    · simp only [if_pos h10]
      have : n % 10 = n := Nat.mod_eq_of_lt h10
      rw [this]
      rfl
    · simp only [if_neg h10]
      have hdiv : n / 10 < n := Nat.div_lt_self (by omega) (by omega)
      rw [ih (n / 10) (Nat.digitChar (n % 10) :: acc) (by omega)]
      simp [List.append_assoc]

theorem digitChar_isDigit (d : Nat) (h : d < 10) : (Nat.digitChar d).isDigit = Bool.true := by
  interval_cases d <;> decide

theorem digitChar_toNat (d : Nat) (h : d < 10) : (Nat.digitChar d).toNat = 48 + d := by
  interval_cases d <;> decide

theorem digitChar_ne_plus (d : Nat) (h : d < 10) : Nat.digitChar d ≠ '+' := by
  interval_cases d <;> decide

theorem digitChar_ne_minus (d : Nat) (h : d < 10) : Nat.digitChar d ≠ '-' := by
  interval_cases d <;> decide

theorem parseDigitsGo_decChars (n : Nat) :
    ∀ (a : Nat) (rest : List Char),
      parseDigitsGo a (decCharsSpec n ++ rest) =
        parseDigitsGo (a * 10 ^ (decCharsSpec n).length + n) rest := by
  induction n using Nat.strong_induction_on with
  | _ n ih =>
    intro a rest
    rw [decCharsSpec]
    by_cases h10 : n < 10
    · simp only [if_pos h10, List.cons_append, List.nil_append, List.length_cons,
        List.length_nil]
      rw [parseDigitsGo]
      rw [digitChar_isDigit n h10, digitChar_toNat n h10]
      simp only [if_pos rfl]
      norm_num
    · simp only [if_neg h10]
      have hdiv : n / 10 < n := Nat.div_lt_self (by omega) (by omega)
      rw [List.append_assoc, ih (n / 10) hdiv a (Nat.digitChar (n % 10) :: [] ++ rest)]
      simp only [List.nil_append, List.cons_append]
      rw [parseDigitsGo]
      have hm : n % 10 < 10 := Nat.mod_lt n (by omega)
      rw [digitChar_isDigit _ hm, digitChar_toNat _ hm]
      simp only [if_pos rfl, if_true, List.length_append, List.length_cons, List.length_nil]
      have h48 : (48 : Nat) + n % 10 - 48 = n % 10 := by omega
      rw [h48]
      congr 1
      have hdm : n / 10 * 10 + n % 10 = n := by omega
      calc (a * 10 ^ (decCharsSpec (n / 10)).length + n / 10) * 10 + n % 10
          = a * (10 ^ (decCharsSpec (n / 10)).length * 10) + (n / 10 * 10 + n % 10) := by ring
        _ = a * 10 ^ ((decCharsSpec (n / 10)).length + (0 + 1)) + n := by
            rw [hdm, pow_succ]

theorem decCharsSpec_head (n : Nat) :
    ∃ d tl, d < 10 ∧ decCharsSpec n = Nat.digitChar d :: tl := by
  induction n using Nat.strong_induction_on with
  | _ n ih =>
    rw [decCharsSpec]
    by_cases h10 : n < 10
    · exact ⟨n, [], h10, by simp [if_pos h10]⟩
    · have hdiv : n / 10 < n := Nat.div_lt_self (by omega) (by omega)
      obtain ⟨d, tl, hd, heq⟩ := ih (n / 10) hdiv
      exact ⟨d, tl ++ [Nat.digitChar (n % 10)], hd, by simp [if_neg h10, heq]⟩

theorem rust_parse_digits_decChars (n : Nat) :
    rust_parse_digits (decCharsSpec n) = some n := by
  obtain ⟨d, tl, hd, heq⟩ := decCharsSpec_head n
  rw [heq, rust_parse_digits, ← heq]
  have := parseDigitsGo_decChars n 0 []
  rw [List.append_nil] at this
  rw [this]
  simp [parseDigitsGo]

theorem natToDecimal_toList (n : Nat) : (natToDecimal n).toList = decCharsSpec n := by
  have h : natToDecCharsF (n + 1) n [] = decCharsSpec n ++ [] :=
    natToDecCharsF_eq (n + 1) n [] (Nat.lt_succ_self n)
  rw [List.append_nil] at h
  show (String.mk (natToDecCharsF (n + 1) n [])).toList = decCharsSpec n
  rw [h]
  rfl

theorem rust_u128_from_str_natToDecimal (n : Nat) (h : n < 2 ^ 128) :
    rust_u128_from_str (natToDecimal n) = some n := by
  obtain ⟨d, tl, hd, heq⟩ := decCharsSpec_head n
  unfold rust_u128_from_str
  rw [natToDecimal_toList, heq]
  simp only [if_neg (digitChar_ne_plus d hd)]
  rw [← heq, rust_parse_digits_decChars]
  show (if n < 2 ^ 128 then some n else none) = some n
  rw [if_pos h]

theorem rust_i128_from_str_intToDecimal (v : Int)
    (hlo : -(2 ^ 127) ≤ v) (hhi : v ≤ 2 ^ 127 - 1) :
    rust_i128_from_str (intToDecimal v) = some v := by
  by_cases hneg : v < 0
  · have hms : intToDecimal v = "-" ++ natToDecimal (-v).toNat := by
      rw [intToDecimal, if_pos hneg]
    obtain ⟨d, tl, hd, heq⟩ := decCharsSpec_head (-v).toNat
    unfold rust_i128_from_str
    rw [hms]
    rw [show ("-" ++ natToDecimal (-v).toNat).toList =
        '-' :: (natToDecimal (-v).toNat).toList from rfl]
    rw [natToDecimal_toList, heq, ← heq]
    simp only [if_neg (by decide : ¬('-' : Char) = '+'), if_pos rfl,
      rust_parse_digits_decChars]
    have hb : (-v).toNat ≤ 2 ^ 127 := by omega
    simp only [if_pos hb]
    have hx : (((-v).toNat : Int)) = -v := Int.toNat_of_nonneg (by omega)
    rw [hx, neg_neg]
    simp
  · have hpos : 0 ≤ v := by omega
    have hms : intToDecimal v = natToDecimal v.toNat := by
      rw [intToDecimal, if_neg hneg]
    obtain ⟨d, tl, hd, heq⟩ := decCharsSpec_head v.toNat
    unfold rust_i128_from_str
    rw [hms, natToDecimal_toList, heq]
    simp only [if_neg (digitChar_ne_plus d hd), if_neg (digitChar_ne_minus d hd)]
    rw [← heq, rust_parse_digits_decChars]
    have hb : v.toNat ≤ 2 ^ 127 - 1 := by omega
    simp only [if_pos hb]
    congr 1
    exact Int.toNat_of_nonneg hpos

/-- C5: at `U128`/`I128`, `from_json` accepts the decimal-string rendering
of every value of the full 128-bit range; a JSON number is accepted
exactly when serde's `Number` holds it as a 64-bit integer (`u64` for
`U128`; for `I128` a nonnegative number only up to `i64::MAX`, a negative
one always, since serde stores it as `i64`), floats and sign mismatches
failing with `InvalidValue`; and the decode direction always renders these
types as decimal JSON strings, never numbers. -/
theorem c5_u128_i128_codec :
    (∀ n : Nat, n < 2 ^ 128 →
      from_json_primitives (.str (natToDecimal n)) .u128 =
        .ok (.object (some (u128ScObjectOfNat n)))) ∧
    (∀ v : Int, -(2 ^ 127) ≤ v → v ≤ 2 ^ 127 - 1 →
      from_json_primitives (.str (intToDecimal v)) .i128 =
        .ok (.object (some (i128ScObjectOfInt v)))) ∧
    (∀ n : Nat, from_json_primitives (.num (.u n)) .u128 =
      .ok (.object (some (u128ScObjectOfNat n)))) ∧
    (∀ m : Int, from_json_primitives (.num (.i m)) .u128 =
      .error (.err (.invalidValue (some .u128)))) ∧
    (from_json_primitives (.num .f) .u128 = .error (.err (.invalidValue (some .u128)))) ∧
    (∀ m : Int, from_json_primitives (.num (.i m)) .i128 =
      .ok (.object (some (i128ScObjectOfInt m)))) ∧
    (∀ n : Nat, from_json_primitives (.num (.u n)) .i128 =
      if n ≤ 2 ^ 63 - 1 then .ok (.object (some (i128ScObjectOfInt (n : Int))))
      else .error (.err (.invalidValue (some .i128)))) ∧
    (from_json_primitives (.num .f) .i128 = .error (.err (.invalidValue (some .i128)))) ∧
    (∀ (spec : Spec) (fuel : Nat) (lo hi : Nat),
      spec.sc_object_to_json fuel (.u128 lo hi) .u128 =
        .ok (.str (natToDecimal (u128OfParts lo hi)))) ∧
    (∀ (spec : Spec) (fuel : Nat) (lo hi : Nat),
      spec.sc_object_to_json fuel (.i128 lo hi) .i128 =
        .ok (.str (intToDecimal (i128OfParts lo hi)))) := by
  refine ⟨?_, ?_, fun n => rfl, fun m => rfl, rfl, fun m => rfl, ?_, rfl,
    fun spec fuel lo hi => rfl, fun spec fuel lo hi => rfl⟩
  · intro n h
    show (match rust_u128_from_str (natToDecimal n) with
      | some u => Except.ok (ScVal.object (some (u128ScObjectOfNat u)))
      | none => Except.error (.err (.invalidValue (some .u128))) : Res ScVal) = _
    rw [rust_u128_from_str_natToDecimal n h]
  · intro v hlo hhi
    show (match rust_i128_from_str (intToDecimal v) with
      | some i => Except.ok (ScVal.object (some (i128ScObjectOfInt i)))
      | none => Except.error (.err (.invalidValue (some .i128))) : Res ScVal) = _
    rw [rust_i128_from_str_intToDecimal v hlo hhi]
  · intro n
    have hlit : (2 : Nat) ^ 63 - 1 = 9223372036854775807 := by norm_num
    by_cases hn : n ≤ 2 ^ 63 - 1
    · rw [if_pos hn]
      show (match JNum.as_i64 (.u n) with
        | some i => Except.ok (ScVal.object (some (i128ScObjectOfInt i)))
        | none => Except.error (.err (.invalidValue (some .i128))) : Res ScVal) = _
      rw [show JNum.as_i64 (.u n) = some (n : Int) from by
        simp [JNum.as_i64, if_pos (hlit ▸ hn)]]
    · rw [if_neg hn]
      show (match JNum.as_i64 (.u n) with
        | some i => Except.ok (ScVal.object (some (i128ScObjectOfInt i)))
        | none => Except.error (.err (.invalidValue (some .i128))) : Res ScVal) = _
      rw [show JNum.as_i64 (.u n) = none from by
        simp only [JNum.as_i64, if_neg (hlit ▸ hn)]]

/-- C5 witness: `u128::MAX` and `i128::MIN` round in through their decimal
strings, a small number comes in through the u64 path, and the decode side
renders `U128(5)` as the JSON string `"5"`. -/
theorem c5_u128_i128_codec_witness :
    from_json_primitives (.str (natToDecimal 340282366920938463463374607431768211455)) .u128 =
      .ok (.object (some (u128ScObjectOfNat 340282366920938463463374607431768211455))) ∧
    from_json_primitives (.str (intToDecimal (-170141183460469231731687303715884105728))) .i128 =
      .ok (.object (some (i128ScObjectOfInt (-170141183460469231731687303715884105728)))) ∧
    from_json_primitives (.num (.u 7)) .u128 = .ok (.object (some (u128ScObjectOfNat 7))) ∧
    emptySpec.sc_object_to_json 10 (.u128 5 0) .u128 =
      .ok (.str (natToDecimal (u128OfParts 5 0))) :=
  ⟨c5_u128_i128_codec.1 340282366920938463463374607431768211455 (by norm_num),
   c5_u128_i128_codec.2.1 (-170141183460469231731687303715884105728) (by norm_num) (by norm_num),
   c5_u128_i128_codec.2.2.1 7,
   c5_u128_i128_codec.2.2.2.2.2.2.2.2.1 emptySpec 10 5 0⟩

/-- Characterization of the `encode_args` input loop: on success it
returns one encoding per declared input, in declaration order, each
obtained from the JSON object entry of that input's name. -/
theorem encode_args_inputs_spec (spec : Spec) (fuel : Nat) (args : List (String × Json)) :
    ∀ (inputs : List ScSpecFunctionInputV0) (encoded : List ScVal),
      spec.encode_args_inputs fuel args inputs = .ok encoded →
      encoded.length = inputs.length ∧
      (∀ i (hi : i < inputs.length) (hi2 : i < encoded.length), ∃ arg,
        jsonObjGet args (inputs.get ⟨i, hi⟩).name = some arg ∧
        spec.from_json fuel arg (inputs.get ⟨i, hi⟩).type_ = .ok (encoded.get ⟨i, hi2⟩)) := by
  intro inputs
  induction inputs with
  | nil =>
    intro encoded h
    simp only [Spec.encode_args_inputs] at h
    cases h
    exact ⟨rfl, fun i hi hi2 => by simp at hi⟩
  | cons input rest ih =>
    intro encoded h
    simp only [Spec.encode_args_inputs] at h
    split at h
    · exact Except.noConfusion h
    · rename_i arg harg
      split at h
      · exact Except.noConfusion h
      · rename_i v hv
        split at h
        · exact Except.noConfusion h
        · rename_i vs hvs
          cases h
          obtain ⟨hlen, hidx⟩ := ih vs hvs
          refine ⟨by simp [hlen], ?_⟩
          intro i hi hi2
          cases i with
          | zero => exact ⟨arg, harg, hv⟩
          | succ i =>
            exact hidx i (by simpa using hi) (by simpa using hi2)

/-- C6: on a well-formed invocation — function found, argument string a
JSON object, every declared input present and encodable, function name
within the symbol cap, vector within the SCVec cap — `encode_args`
returns `Object(Bytes(contract_id))` at position 0, `Symbol(func_name)`
at position 1, and then the encodings of the declared inputs in declared
order. -/
theorem c6_encode_args_layout (spec : Spec) (fuel : Nat) (contract_id : List Nat)
    (func_name json_args : String) (func : ScSpecFunctionV0)
    (args : List (String × Json)) (encoded : List ScVal)
    (hfind : spec.find_function func_name = .ok func)
    (hjson : json_from_str json_args = .ok (.obj args))
    (hloop : spec.encode_args_inputs fuel args func.inputs = .ok encoded)
    (hname : func_name.utf8ByteSize ≤ 10)
    (hcap : 2 + encoded.length ≤ 256000) :
    spec.encode_args fuel contract_id func_name json_args =
      .ok (.object (some (.bytes contract_id)) :: .symbol func_name :: encoded) ∧
    encoded.length = func.inputs.length ∧
    (∀ i (hi : i < func.inputs.length) (hi2 : i < encoded.length), ∃ arg,
      jsonObjGet args (func.inputs.get ⟨i, hi⟩).name = some arg ∧
      spec.from_json fuel arg (func.inputs.get ⟨i, hi⟩).type_ = .ok (encoded.get ⟨i, hi2⟩)) := by
  obtain ⟨hlen, hidx⟩ := encode_args_inputs_spec spec fuel args func.inputs encoded hloop
  refine ⟨?_, hlen, hidx⟩
  simp only [Spec.encode_args, hfind, hjson, hloop, if_pos hname]
  rw [if_pos (by simp only [List.length_cons]; omega)]

/-- C6 witness: encoding `f(x: U32)` with args `{"x":1}` against a
32-zero-byte contract id yields exactly
`[Object(Bytes(id)), Symbol("f"), U32(1)]`. -/
theorem c6_encode_args_layout_witness :
    structSpec.encode_args 10 (List.replicate 32 0) "f" "\x7b\"x\":1\x7d" =
      .ok (.object (some (.bytes (List.replicate 32 0))) :: .symbol "f" :: [.u32 1]) ∧
    [ScVal.u32 1].length = [ScSpecFunctionInputV0.mk "x" .u32].length ∧
    (∀ i (hi : i < [ScSpecFunctionInputV0.mk "x" .u32].length) (hi2 : i < [ScVal.u32 1].length),
      ∃ arg, jsonObjGet [("x", Json.num (.u 1))]
          ([ScSpecFunctionInputV0.mk "x" .u32].get ⟨i, hi⟩).name = some arg ∧
        structSpec.from_json 10 arg ([ScSpecFunctionInputV0.mk "x" .u32].get ⟨i, hi⟩).type_ =
          .ok ([ScVal.u32 1].get ⟨i, hi2⟩)) :=
  c6_encode_args_layout structSpec 10 (List.replicate 32 0) "f" "\x7b\"x\":1\x7d"
    ⟨"f", [⟨"x", .u32⟩], [.symbol]⟩ [("x", .num (.u 1))] [.u32 1]
    rfl rfl rfl (by decide) (by decide)

theorem json_render_str (s : String) : Json.render (.str s) = renderJString s := by
  rw [Json.render, show deepFuel = 18446744073709551615 + 1 from rfl, Json.renderF]

/-- C7 (counterexample): `decode_args` serializes a `Symbol` return with
`Value::to_string()`, which keeps JSON string quoting — the claim's bare,
unquoted rendering is false. The XDR input is `Symbol("hi")`
(discriminant 5, length 2, bytes `hi`, zero padding). -/
theorem c7_decode_args_quotes_counterexample :
    structSpec.decode_args 10 "f" [0, 0, 0, 5, 0, 0, 0, 2, 104, 105, 0, 0] = .ok "\"hi\"" ∧
    "\"hi\"" ≠ "hi" :=
  ⟨rfl, by decide⟩

/-- C7 (amended): for every function whose first declared output is
`Symbol` and every XDR-encoded `Symbol` return value, `decode_args`
yields the JSON serialization of the symbol's characters — surrounded by
quotation marks (with JSON escaping), not the bare character sequence.
The quote-free rendering lives only in the separate `to_string(&ScVal)`
helper, which `decode_args` does not call. -/
theorem c7_decode_args_symbol_quoted (spec : Spec) (fuel : Nat)
    (func_name : String) (xdr_args : List Nat) (func : ScSpecFunctionV0)
    (s : String) (outs : List ScSpecTypeDef)
    (hfind : spec.find_function func_name = .ok func)
    (houts : func.outputs = ScSpecTypeDef.symbol :: outs)
    (hxdr : scval_from_xdr xdr_args = some (.symbol s)) :
    spec.decode_args (fuel + 1) func_name xdr_args =
      .ok ("\"" ++ String.mk ((s.toList.map jsonEscapeChar).flatten) ++ "\"") := by
  simp only [Spec.decode_args, hfind, hxdr, houts]
  show (do
    let value ← spec.xdr_to_json (fuel + 1) (.symbol s) .symbol
    pure value.render : Res String) = _
  simp only [Spec.xdr_to_json, Spec.xdr_to_json_go, Spec.xdr_to_json_body, bind, Except.bind,
    pure, Except.pure]
  rw [json_render_str, renderJString]

/-- C7 witness: the amended theorem at the concrete `Symbol("hi")` XDR
blob — the output is the quoted string. -/
theorem c7_decode_args_symbol_quoted_witness :
    structSpec.decode_args (9 + 1) "f" [0, 0, 0, 5, 0, 0, 0, 2, 104, 105, 0, 0] =
      .ok ("\"" ++ String.mk (("hi".toList.map jsonEscapeChar).flatten) ++ "\"") :=
  c7_decode_args_symbol_quoted structSpec 9 "f" [0, 0, 0, 5, 0, 0, 0, 2, 104, 105, 0, 0]
    ⟨"f", [⟨"x", .u32⟩], [.symbol]⟩ "hi" [] rfl rfl rfl

/-! ## C8 support lemmas -/

theorem update_matching_entry_length (key : LedgerKey) (entry : LedgerEntry) :
    ∀ (l l' : List (LedgerKey × LedgerEntry)),
      update_matching_entry key entry l = some l' → l'.length = l.length := by
  intro l
  induction l with
  | nil => intro l' h; simp [update_matching_entry] at h
  | cons p rest ih =>
    intro l' h
    simp only [update_matching_entry] at h
    split at h
    · cases h
      rfl
    · split at h
      · rename_i rest2 hrest
        cases h
        simp [ih rest2 hrest]
      · cases h

theorem update_matching_entry_mem (key : LedgerKey) (entry : LedgerEntry) :
    ∀ (l l' : List (LedgerKey × LedgerEntry)),
      update_matching_entry key entry l = some l' →
      ∃ p ∈ l', ledgerKeyEqb p.1 key = Bool.true := by
  intro l
  induction l with
  | nil => intro l' h; simp [update_matching_entry] at h
  | cons p rest ih =>
    intro l' h
    simp only [update_matching_entry] at h
    split at h
    · rename_i heqb
      cases h
      exact ⟨(p.1, entry), by simp, heqb⟩
    · split at h
      · rename_i rest2 hrest
        cases h
        obtain ⟨q, hq, hqe⟩ := ih rest2 hrest
        exact ⟨q, by simp [hq], hqe⟩
      · cases h

theorem update_matching_entry_of_mem (key : LedgerKey) (entry : LedgerEntry) :
    ∀ (l : List (LedgerKey × LedgerEntry)),
      (∃ p ∈ l, ledgerKeyEqb p.1 key = Bool.true) →
      ∃ l', update_matching_entry key entry l = some l' := by
  intro l
  induction l with
  | nil => intro ⟨p, hp, _⟩; simp at hp
  | cons q rest ih =>
    intro ⟨p, hp, hpe⟩
    simp only [update_matching_entry]
    by_cases hq : ledgerKeyEqb q.1 key = Bool.true
    · exact ⟨(q.1, entry) :: rest, by rw [if_pos hq]⟩
    · have hpr : p ∈ rest := by
        cases hp with
        | head => exact absurd hpe hq
        | tail _ h => exact h
      obtain ⟨rest2, hrest⟩ := ih ⟨p, hpr, hpe⟩
      exact ⟨q :: rest2, by rw [if_neg hq, hrest]⟩

theorem add_contract_code_eq (sha256 : List Nat → List Nat)
    (entries : List (LedgerKey × LedgerEntry)) (contract : List Nat) (hash : List Nat)
    (hch : contract_hash sha256 contract = .ok hash) (hlen : contract.length ≤ 256000) :
    add_contract_code_to_ledger_entries sha256 entries contract =
      match update_matching_entry (LedgerKey.contractCode hash)
          { last_modified_ledger_seq := 0, data := .contractCode contract hash } entries with
      | some entries2 => .ok (hash, entries2)
      | none => .ok (hash, entries ++
          [(LedgerKey.contractCode hash,
            { last_modified_ledger_seq := 0, data := .contractCode contract hash })]) := by
  simp only [add_contract_code_to_ledger_entries, hch, if_pos hlen]

theorem add_contract_code_idem_core (sha256 : List Nat → List Nat) (contract : List Nat)
    (hash : List Nat) (hch : contract_hash sha256 contract = .ok hash)
    (hlen : contract.length ≤ 256000) (entries : List (LedgerKey × LedgerEntry)) :
    ∃ entries1 entries2,
      add_contract_code_to_ledger_entries sha256 entries contract = .ok (hash, entries1) ∧
      add_contract_code_to_ledger_entries sha256 entries1 contract = .ok (hash, entries2) ∧
      entries2.length = entries1.length := by
  have hkey : ledgerKeyEqb (LedgerKey.contractCode hash) (LedgerKey.contractCode hash) =
      Bool.true := by simp [ledgerKeyEqb]
  cases hfirst : update_matching_entry (LedgerKey.contractCode hash)
      { last_modified_ledger_seq := 0, data := .contractCode contract hash } entries with
  | none =>
    refine ⟨entries ++ [(LedgerKey.contractCode hash,
      { last_modified_ledger_seq := 0, data := .contractCode contract hash })], ?_⟩
    have hmem : ∃ p ∈ entries ++ [(LedgerKey.contractCode hash,
        ({ last_modified_ledger_seq := 0,
           data := .contractCode contract hash } : LedgerEntry))],
        ledgerKeyEqb p.1 (LedgerKey.contractCode hash) = Bool.true :=
      ⟨(LedgerKey.contractCode hash,
        { last_modified_ledger_seq := 0, data := .contractCode contract hash }),
       List.mem_append_right _ (List.mem_singleton.mpr rfl), hkey⟩
    obtain ⟨e2, he2⟩ := update_matching_entry_of_mem (LedgerKey.contractCode hash)
      { last_modified_ledger_seq := 0, data := .contractCode contract hash } _ hmem
    refine ⟨e2, ?_, ?_, update_matching_entry_length _ _ _ _ he2⟩
    · rw [add_contract_code_eq sha256 entries contract hash hch hlen, hfirst]
    · rw [add_contract_code_eq sha256 _ contract hash hch hlen, he2]
  | some e1 =>
    have hmem := update_matching_entry_mem (LedgerKey.contractCode hash)
      { last_modified_ledger_seq := 0, data := .contractCode contract hash } entries e1 hfirst
    obtain ⟨e2, he2⟩ := update_matching_entry_of_mem (LedgerKey.contractCode hash)
      { last_modified_ledger_seq := 0, data := .contractCode contract hash } e1 hmem
    refine ⟨e1, e2, ?_, ?_, update_matching_entry_length _ _ _ _ he2⟩
    · rw [add_contract_code_eq sha256 entries contract hash hch hlen, hfirst]
    · rw [add_contract_code_eq sha256 e1 contract hash hch hlen, he2]

/-- C8: `add_contract_code_to_ledger_entries` is idempotent — with any
SHA-256 function, any entry list and any in-cap byte string, two
successive calls return the same hash, equal to `contract_hash` of the
bytes, which is the SHA-256 of the canonical `{ code: bytes }` framing;
and the second call leaves the entry list length unchanged. -/
theorem c8_install_module_idempotent (sha256 : List Nat → List Nat)
    (entries : List (LedgerKey × LedgerEntry)) (contract : List Nat)
    (hlen : contract.length ≤ 256000) :
    ∃ hash entries1 entries2,
      add_contract_code_to_ledger_entries sha256 entries contract = .ok (hash, entries1) ∧
      add_contract_code_to_ledger_entries sha256 entries1 contract = .ok (hash, entries2) ∧
      contract_hash sha256 contract = .ok hash ∧
      hash = sha256 (u32be contract.length ++ contract ++
        List.replicate ((4 - contract.length % 4) % 4) 0) ∧
      entries2.length = entries1.length := by
  have hch : contract_hash sha256 contract =
      .ok (sha256 (u32be contract.length ++ contract ++
        List.replicate ((4 - contract.length % 4) % 4) 0)) := by
    rw [contract_hash, install_contract_code_args_xdr, if_pos hlen]
  obtain ⟨e1, e2, h1, h2, hlens⟩ :=
    add_contract_code_idem_core sha256 contract _ hch hlen entries
  exact ⟨_, e1, e2, h1, h2, hch, rfl, hlens⟩

/-- C8 witness: with the identity standing in for SHA-256, installing
`[1,2,3]` twice into an empty ledger returns the framed hash both times
and keeps the entry list at one element. -/
theorem c8_install_module_idempotent_witness :
    ∃ hash entries1 entries2,
      add_contract_code_to_ledger_entries (fun l => l) [] [1, 2, 3] = .ok (hash, entries1) ∧
      add_contract_code_to_ledger_entries (fun l => l) entries1 [1, 2, 3] = .ok (hash, entries2) ∧
      contract_hash (fun l => l) [1, 2, 3] = .ok hash ∧
      hash = (fun l : List Nat => l) (u32be [1, 2, 3].length ++ [1, 2, 3] ++
        List.replicate ((4 - [1, 2, 3].length % 4) % 4) 0) ∧
      entries2.length = entries1.length :=
  c8_install_module_idempotent (fun l => l) [] [1, 2, 3] (by decide)

/-- C1: the decode/encode round trip is not the identity. For struct `S`
with declared fields `b, a` (field-name symbols sort as `a, b`), the
in-domain value `v = Map[a → 1, b → 2]` — itself produced by `from_json`
— decodes through `udt_to_json`'s positional zip of declared fields with
sorted entries into `{"b": 1, "a": 2}` (values attached to the wrong
field names), and re-encoding returns `Map[a → 2, b → 1] ≠ v`. -/
theorem c1_struct_roundtrip_fails :
    structSpec.from_json 10 (.obj [("a", .num (.u 1)), ("b", .num (.u 2))]) (.udt "S") =
      .ok (.object (some (.map [(.symbol "a", .u32 1), (.symbol "b", .u32 2)]))) ∧
    structSpec.xdr_to_json 10
        (.object (some (.map [(.symbol "a", .u32 1), (.symbol "b", .u32 2)]))) (.udt "S") =
      .ok (.obj [("a", .num (.u 2)), ("b", .num (.u 1))]) ∧
    structSpec.from_json 10 (.obj [("a", .num (.u 2)), ("b", .num (.u 1))]) (.udt "S") =
      .ok (.object (some (.map [(.symbol "a", .u32 2), (.symbol "b", .u32 1)]))) ∧
    ScVal.object (some (.map [(.symbol "a", .u32 2), (.symbol "b", .u32 1)])) ≠
      ScVal.object (some (.map [(.symbol "a", .u32 1), (.symbol "b", .u32 2)])) := by
  refine ⟨rfl, rfl, rfl, ?_⟩
  simp

/-- C3: `encode_args` panics instead of returning an error, both when the
argument string is valid JSON but not an object (`"[]"` hits
`value.as_object().unwrap()`) and when the JSON object lacks a declared
input (`"{}"` hits `args.get(..).unwrap()` for input `x`). -/
theorem c3_encode_args_panics :
    structSpec.encode_args 10 (List.replicate 32 0) "f" "[]" =
      .error (.panicked "value.as_object().unwrap()") ∧
    structSpec.encode_args 10 (List.replicate 32 0) "f" "\x7b\x7d" =
      .error (.panicked "args.get(&input.name).unwrap()") :=
  ⟨rfl, rfl⟩
